import Mathlib

/-!
Shallow embedding of the Game of Life engine from `src/game.rs` and
`src/render.rs` of robherley/game-of-life, together with theorems checking
the specification's claims about it.

Rust strings are modelled as `List Char` (Rust `char` is a Unicode scalar
value, as is Lean's `Char`); byte positions produced by `str::char_indices`
and byte lengths produced by `str::len` are recovered through
`Char.utf8Size`.  Rust panics (out-of-bounds indexing) are modelled as
`Option.none`.
-/

namespace GOL

/-- `BoardError` from `src/game.rs`. -/
inductive BoardError where
  | InvalidSeparator (c : Char)
  | InvalidSeedCharacter (c alive dead : Char)
deriving DecidableEq, Repr

/-- The `NEIGHBORS` offset table from `src/game.rs` (row offset, column offset). -/
def NEIGHBORS : List (Int × Int) :=
  [(-1, -1), (-1, 0), (-1, 1), (0, 1), (1, 1), (1, 0), (1, -1), (0, -1)]

/-- `Board` from `src/game.rs`: a row-major grid of booleans. -/
structure Board where
  grid : List (List Bool)
deriving DecidableEq, Repr

/-- `Game` from `src/game.rs`.  `generation` and `delta` are `usize` counters. -/
structure Game where
  board : Board
  generation : Nat
  delta : Nat
deriving DecidableEq, Repr

/-- `impl From<Board> for Game`: a fresh game starts at generation 0, delta 0. -/
def Game.fromBoard (board : Board) : Game :=
  { board := board, generation := 0, delta := 0 }

/-- `Board::rows`. -/
def Board.rows (b : Board) : Nat :=
  b.grid.length

/-- `Board::cols` returns `self.grid[0].len()`; the indexing `grid[0]`
panics when the grid has zero rows, modelled here as `none`. -/
def Board.colsOpt (b : Board) : Option Nat :=
  b.grid.head?.map List.length

/-- `Board::safe_get`: negative or out-of-bounds positions read as dead. -/
def Board.safe_get (b : Board) (row col : Int) : Bool :=
  if row < 0 ∨ col < 0 then
    false
  else
    match b.grid.get? row.toNat with
    | some r =>
      match r.get? col.toNat with
      | some cell => cell
      | none => false
    | none => false

/-- `Board::neighbors`: how many of the 8 offsets in `NEIGHBORS` hold a live cell. -/
def Board.neighbors (b : Board) (row col : Nat) : Nat :=
  (NEIGHBORS.filter fun p => b.safe_get ((row : Int) + p.1) ((col : Int) + p.2)).length

/-- `Board::interact`: the next state of cell `(row, col)` and whether it changed. -/
def Board.interact (b : Board) (row col : Nat) : Bool × Bool :=
  let neighbors := b.neighbors row col
  let alive := b.safe_get (row : Int) (col : Int)
  let next : Bool :=
    match neighbors, alive with
    | 3, false => true
    | 0, true => false
    | 1, true => false
    | 2, true => true
    | 3, true => true
    | _, _ => false
  (next, next != alive)

/-- Index-carrying map, the embedding of the source's
`for row in 0..len { for col in .. }` loops; `i` is the index of the
first element of the remaining list. -/
def mapIdxFrom (f : Nat → α → β) : Nat → List α → List β
  | _, [] => []
  | i, a :: as => f i a :: mapIdxFrom f (i + 1) as

/-- `Board::next`: the new grid (each cell computed by `interact` against the
pre-transition grid) together with the number of changed cells. -/
def Board.next (b : Board) : Board × Nat :=
  let nextGrid :=
    mapIdxFrom (fun row cells => mapIdxFrom (fun col _ => (b.interact row col).1) 0 cells) 0 b.grid
  let delta :=
    (mapIdxFrom (fun row cells =>
      (mapIdxFrom (fun col _ => (b.interact row col).2) 0 cells).count true) 0 b.grid).sum
  (⟨nextGrid⟩, delta)

/-- `Game::next`: store the step's delta and advance the generation. -/
def Game.next (g : Game) : Game :=
  { board := (g.board.next).1, generation := g.generation + 1, delta := (g.board.next).2 }

/-- `Game::is_terminal`. -/
def Game.is_terminal (g : Game) : Bool :=
  g.generation != 0 && g.delta == 0

/-- Rust `char::is_whitespace`: the Unicode `White_Space` property. -/
def rustIsWhitespace (c : Char) : Bool :=
  c.toNat ∈ ([0x09, 0x0A, 0x0B, 0x0C, 0x0D, 0x20, 0x85, 0xA0, 0x1680,
    0x2000, 0x2001, 0x2002, 0x2003, 0x2004, 0x2005, 0x2006, 0x2007, 0x2008,
    0x2009, 0x200A, 0x2028, 0x2029, 0x202F, 0x205F, 0x3000] : List Nat)

/-- Rust `str::trim`: strip leading and trailing whitespace characters. -/
def rustTrim (s : List Char) : List Char :=
  ((s.dropWhile rustIsWhitespace).reverse.dropWhile rustIsWhitespace).reverse

/-- Rust `str::split(char)`: `n` separator occurrences yield `n + 1` pieces;
the empty string yields one empty piece. -/
def rustSplit (sep : Char) : List Char → List (List Char)
  | [] => [[]]
  | c :: rest =>
    match rustSplit sep rest with
    | [] => [[]]
    | piece :: pieces =>
      if c == sep then [] :: piece :: pieces else (c :: piece) :: pieces

/-- Rust `str::len`: the length of the string in UTF-8 bytes. -/
def strByteLen (s : List Char) : Nat :=
  (s.map Char.utf8Size).sum

/-- Rust `str::char_indices` starting from byte offset `i`:
each character paired with its UTF-8 byte offset. -/
def charIndicesFrom (i : Nat) : List Char → List (Nat × Char)
  | [] => []
  | c :: rest => (i, c) :: charIndicesFrom (i + c.utf8Size) rest

/-- The inner loop of `Board::from_seed` over one row's `char_indices`:
the alive symbol sets the cell at its byte offset, the dead symbol leaves the
pre-filled `false`, anything else aborts the decode. -/
def parseRowFrom (alive dead : Char) : List (Nat × Char) → List Bool → Except BoardError (List Bool)
  | [], acc => .ok acc
  | (idx, cell) :: rest, acc =>
    if cell == alive then
      parseRowFrom alive dead rest (acc.set idx true)
    else if cell != dead then
      .error (.InvalidSeedCharacter cell alive dead)
    else
      parseRowFrom alive dead rest acc

/-- The outer loop of `Board::from_seed`: each row-string is parsed into a row
pre-filled with `cols` dead cells; the first bad character aborts the decode. -/
def parseRows (alive dead : Char) (cols : Nat) : List (List Char) → Except BoardError (List (List Bool))
  | [] => .ok []
  | row :: rest => do
    let r ← parseRowFrom alive dead (charIndicesFrom 0 row) (List.replicate cols false)
    let rs ← parseRows alive dead cols rest
    return r :: rs

/-- `Board::from_seed`.  The column count is the maximum row-string length in
bytes (`s.len()` in Rust counts UTF-8 bytes). -/
def Board.from_seed (seed : List Char) (alive dead separator : Char) : Except BoardError Board :=
  if separator == alive || separator == dead then
    .error (.InvalidSeparator separator)
  else
    let seeds := rustSplit separator (rustTrim seed)
    let cols := ((seeds.map strByteLen).max?).getD 0
    (parseRows alive dead cols seeds).map fun g => ⟨g⟩

/-- One row of `Board::stringify`: one symbol per cell. -/
def rowChars (alive dead : Char) (row : List Bool) : List Char :=
  row.map fun cell => if cell then alive else dead

/-- The loop of `Board::stringify`: the separator is pushed after every row
but the last. -/
def stringifyGrid (alive dead separator : Char) : List (List Bool) → List Char
  | [] => []
  | [row] => rowChars alive dead row
  | row :: rest => rowChars alive dead row ++ separator :: stringifyGrid alive dead separator rest

/-- `Board::stringify`.  The source first computes the capacity
`self.rows() * self.cols() + self.rows()`, and `cols()` indexes `grid[0]`,
which panics on a zero-row grid; that panic is modelled as `none`. -/
def Board.stringifyOpt (b : Board) (alive dead separator : Char) : Option (List Char) :=
  b.colsOpt.map fun _ => stringifyGrid alive dead separator b.grid

/-- Reading a cell of a grid at row `r`, column `c`, with out-of-range
positions reading as dead. -/
def cellAt (grid : List (List Bool)) (r c : Nat) : Bool :=
  (grid.getD r []).getD c false

theorem mapIdxFrom_length (f : Nat → α → β) (i : Nat) (l : List α) :
    (mapIdxFrom f i l).length = l.length := by
  induction l generalizing i with
  | nil => rfl
  | cons a as ih => simp [mapIdxFrom, ih]

theorem mapIdxFrom_getD (f : Nat → α → β) (i j : Nat) (l : List α) (d : β) (d' : α)
    (h : j < l.length) :
    (mapIdxFrom f i l).getD j d = f (i + j) (l.getD j d') := by
  induction l generalizing i j with
  | nil => simp at h
  | cons a as ih =>
    cases j with
    | zero => simp [mapIdxFrom]
    | succ j =>
      have hj : j < as.length := by simpa using h
      have : i + 1 + j = i + (j + 1) := by omega
      simp only [mapIdxFrom, List.getD_cons_succ, ih (i + 1) j hj, this]

theorem getD_of_get?_none {l : List α} {n : Nat} (d : α) (h : l.get? n = none) :
    l.getD n d = d :=
  List.getD_eq_default l d (List.get?_eq_none.mp h)

theorem getD_of_get?_some {l : List α} {n : Nat} {a : α} (d : α) (h : l.get? n = some a) :
    l.getD n d = a := by
  rw [List.getD_eq_get?, h]; rfl

theorem matchGet_eq_getD (l : List (List Bool)) (r c : Nat) :
    (match l.get? r with
     | some row =>
       match row.get? c with
       | some cell => cell
       | none => false
     | none => false) = (l.getD r []).getD c false := by
  rcases h : l.get? r with _ | row
  · rw [getD_of_get?_none [] h]
    simp
  · rw [getD_of_get?_some [] h]
    rcases h2 : row.get? c with _ | cell
    · rw [getD_of_get?_none false h2]
      simp only [h2]
    · rw [getD_of_get?_some false h2]
      simp only [h2]

theorem safe_get_natCast (b : Board) (r c : Nat) :
    b.safe_get (r : Int) (c : Int) = cellAt b.grid r c := by
  have hr : ¬((r : Int) < 0 ∨ (c : Int) < 0) := by
    push_neg
    exact ⟨Int.natCast_nonneg r, Int.natCast_nonneg c⟩
  unfold Board.safe_get cellAt
  rw [if_neg hr]
  simp only [Int.toNat_natCast]
  exact matchGet_eq_getD b.grid r c

theorem safe_get_neg {b : Board} {r c : Int} (h : r < 0 ∨ c < 0) :
    b.safe_get r c = false := by
  unfold Board.safe_get
  rw [if_pos h]

/-- The claim's transition rule, stated in its precedence order: a dead cell
with exactly 3 live neighbors becomes alive; a live cell with 0 or 1 live
neighbors dies; a live cell with 2 or 3 live neighbors stays alive; every
other cell is dead afterwards.  Follows the claim's words. -/
def lifeRuleSpec (alive : Bool) (n : Nat) : Bool :=
  if alive = false ∧ n = 3 then true
  else if alive = true ∧ n ≤ 1 then false
  else if alive = true ∧ (n = 2 ∨ n = 3) then true
  else false

/-- The claim's notion of reading a position: out-of-bounds counts as dead.
Follows the claim's words. -/
def specAlive (grid : List (List Bool)) (r c : Int) : Bool :=
  if r < 0 ∨ c < 0 then false
  else (grid.getD r.toNat []).getD c.toNat false

/-- The claim's neighbor count: live cells among the 8 surrounding positions
(the 4 orthogonal and 4 diagonal offsets), out-of-bounds reading as dead.
Follows the claim's words. -/
def specNeighborCount (grid : List (List Bool)) (row col : Nat) : Nat :=
  (([(-1, -1), (-1, 0), (-1, 1), (0, 1), (1, 1), (1, 0), (1, -1), (0, -1)] :
      List (Int × Int)).filter fun d =>
    specAlive grid ((row : Int) + d.1) ((col : Int) + d.2)).length

theorem safe_get_eq_specAlive (b : Board) (r c : Int) :
    b.safe_get r c = specAlive b.grid r c := by
  unfold Board.safe_get specAlive
  split
  · rfl
  · exact matchGet_eq_getD b.grid r.toNat c.toNat

theorem neighbors_eq_specNeighborCount (b : Board) (row col : Nat) :
    b.neighbors row col = specNeighborCount b.grid row col := by
  unfold Board.neighbors specNeighborCount NEIGHBORS
  rw [List.filter_congr]
  intro d _
  exact safe_get_eq_specAlive b ((row : Int) + d.1) ((col : Int) + d.2)

theorem interact_fst (b : Board) (row col : Nat) :
    (b.interact row col).1 =
      lifeRuleSpec (b.safe_get (row : Int) (col : Int)) (b.neighbors row col) := by
  unfold Board.interact
  rcases b.safe_get (row : Int) (col : Int) with _ | _ <;>
    rcases hn : b.neighbors row col with _ | _ | _ | _ | n <;>
      simp [lifeRuleSpec]

theorem interact_snd (b : Board) (row col : Nat) :
    (b.interact row col).2 = ((b.interact row col).1 != b.safe_get (row : Int) (col : Int)) :=
  rfl

theorem getD_replicate (k j : Nat) (x d : α) :
    (List.replicate k x).getD j d = if j < k then x else d := by
  rw [List.getD_eq_getElem?_getD, List.getElem?_replicate]
  split <;> rfl

theorem getD_set_self {l : List α} {i : Nat} {a : α} (d : α) (h : i < l.length) :
    (l.set i a).getD i d = a := by
  rw [List.getD_eq_getElem?_getD, List.getElem?_set_self h]
  rfl

theorem getD_set_ne {l : List α} {i j : Nat} {a : α} (d : α) (h : i ≠ j) :
    (l.set i a).getD j d = l.getD j d := by
  rw [List.getD_eq_getElem?_getD, List.getElem?_set_ne h, ← List.getD_eq_getElem?_getD]

/-- A grid of `m` rows and `n` columns whose only live cell is at `(0, 0)`. -/
def singleAliveGrid (m n : Nat) : List (List Bool) :=
  ((List.replicate n false).set 0 true) :: List.replicate (m - 1) (List.replicate n false)

theorem singleAliveGrid_cellAt_zero {m n : Nat} (hn : 0 < n) :
    cellAt (singleAliveGrid m n) 0 0 = true := by
  unfold cellAt singleAliveGrid
  rw [List.getD_cons_zero, getD_set_self false (by simpa using hn)]

theorem singleAliveGrid_cellAt_ne (m n : Nat) {r c : Nat} (h : ¬(r = 0 ∧ c = 0)) :
    cellAt (singleAliveGrid m n) r c = false := by
  unfold cellAt singleAliveGrid
  cases r with
  | zero =>
    have hc : c ≠ 0 := fun hc0 => h ⟨rfl, hc0⟩
    rw [List.getD_cons_zero, getD_set_ne false (Ne.symm hc), getD_replicate]
    split <;> rfl
  | succ r =>
    rw [List.getD_cons_succ, getD_replicate]
    split
    · rw [getD_replicate]
      split <;> rfl
    · rfl

theorem singleAliveGrid_safe_get (m n : Nat) {r c : Nat} (h : ¬(r = 0 ∧ c = 0)) :
    (⟨singleAliveGrid m n⟩ : Board).safe_get (r : Nat) (c : Nat) = false := by
  rw [safe_get_natCast]
  exact singleAliveGrid_cellAt_ne m n h

theorem singleAliveGrid_neighbors (m n : Nat) :
    (⟨singleAliveGrid m n⟩ : Board).neighbors 0 0 = 0 := by
  have h01 : (⟨singleAliveGrid m n⟩ : Board).safe_get 0 1 = false := by
    have := singleAliveGrid_safe_get m n (r := 0) (c := 1) (by simp)
    simpa using this
  have h10 : (⟨singleAliveGrid m n⟩ : Board).safe_get 1 0 = false := by
    have := singleAliveGrid_safe_get m n (r := 1) (c := 0) (by simp)
    simpa using this
  have h11 : (⟨singleAliveGrid m n⟩ : Board).safe_get 1 1 = false := by
    have := singleAliveGrid_safe_get m n (r := 1) (c := 1) (by simp)
    simpa using this
  unfold Board.neighbors NEIGHBORS
  simp [List.filter, safe_get_neg, h01, h10, h11]

theorem neighbors_corner_le_three (b : Board) : b.neighbors 0 0 ≤ 3 := by
  unfold Board.neighbors NEIGHBORS
  have hnegr : ∀ c : Int, b.safe_get (-1) c = false :=
    fun c => safe_get_neg (Or.inl (by norm_num))
  have hnegc : ∀ r : Int, b.safe_get r (-1) = false :=
    fun r => safe_get_neg (Or.inr (by norm_num))
  simp only [List.filter, Nat.cast_zero, zero_add, hnegr, hnegc]
  rcases b.safe_get 0 1 <;> rcases b.safe_get 1 1 <;> rcases b.safe_get 1 0 <;> simp

theorem next_cellAt (b : Board) (r c : Nat) (hr : r < b.grid.length)
    (hc : c < (b.grid.getD r []).length) :
    cellAt (Board.next b).1.grid r c = (b.interact r c).1 := by
  unfold Board.next cellAt
  rw [mapIdxFrom_getD _ 0 r b.grid [] [] hr]
  simp only [Nat.zero_add]
  rw [mapIdxFrom_getD _ 0 c _ false false hc]
  simp

/-- Claim C1: `Board::next` computes each in-bounds cell's next state from the
pre-transition grid alone, as the claim's rule (dead with exactly 3 live
neighbors becomes alive; live with 0 or 1 dies; live with 2 or 3 survives;
everything else dead) applied to the cell's old state and its live-neighbor
count over the 8 surrounding positions with out-of-bounds read as dead;
moreover at corner `(0, 0)` at most 3 neighbors are counted, and a single
alive cell at `(0, 0)` of an otherwise dead `m × n` grid dies after one
`next`, for every grid size. -/
theorem c1_transition_rule :
    (∀ (b : Board) (r c : Nat), r < b.grid.length → c < (b.grid.getD r []).length →
      cellAt (Board.next b).1.grid r c =
        lifeRuleSpec (cellAt b.grid r c) (specNeighborCount b.grid r c)) ∧
    (∀ b : Board, b.neighbors 0 0 ≤ 3) ∧
    (∀ m n : Nat, 0 < m → 0 < n →
      cellAt (Board.next ⟨singleAliveGrid m n⟩).1.grid 0 0 = false) := by
  refine ⟨?_, neighbors_corner_le_three, ?_⟩
  · intro b r c hr hc
    rw [next_cellAt b r c hr hc, interact_fst, safe_get_natCast,
      neighbors_eq_specNeighborCount]
  · intro m n hm hn
    have hr : 0 < (singleAliveGrid m n).length := by
      simp [singleAliveGrid]
    have hc : 0 < ((singleAliveGrid m n).getD 0 []).length := by
      simp [singleAliveGrid, List.getD_cons_zero, hn]
    rw [next_cellAt ⟨singleAliveGrid m n⟩ 0 0 hr hc, interact_fst, safe_get_natCast,
      singleAliveGrid_neighbors]
    have := singleAliveGrid_cellAt_zero (m := m) hn
    rw [this]
    rfl

/-- Witness for C1 at the 1×1 all-alive grid and the 1×1 single-alive grid. -/
theorem c1_transition_rule_witness :
    cellAt (Board.next ⟨[[true]]⟩).1.grid 0 0 =
        lifeRuleSpec (cellAt [[true]] 0 0) (specNeighborCount [[true]] 0 0) ∧
    cellAt (Board.next ⟨singleAliveGrid 1 1⟩).1.grid 0 0 = false :=
  ⟨c1_transition_rule.1 ⟨[[true]]⟩ 0 0 (by decide) (by decide),
   c1_transition_rule.2.2 1 1 (by decide) (by decide)⟩

/-- Claim C6: `Game::is_terminal` is true exactly when the generation is
positive and the most recent delta is zero; a freshly constructed game
(generation 0, delta 0) is never terminal, whatever its board. -/
theorem c6_is_terminal_iff :
    (∀ g : Game, g.is_terminal = true ↔ 0 < g.generation ∧ g.delta = 0) ∧
    (∀ b : Board, (Game.fromBoard b).is_terminal = false) := by
  constructor
  · intro g
    unfold Game.is_terminal
    simp [Nat.pos_iff_ne_zero]
  · intro b
    rfl

/-- The claim's measure: the number of cell positions whose boolean value
differs between two grids.  Follows the claim's words. -/
def countDiff (g1 g2 : List (List Bool)) : Nat :=
  ((g1.zip g2).map fun rr =>
    ((rr.1.zip rr.2).filter fun cc => cc.1 != cc.2).length).sum

theorem bne_comm_bool (x y : Bool) : (x != y) = (y != x) := by
  rcases x <;> rcases y <;> rfl

theorem row_diff_eq_count (b : Board) (r : Nat) (cells : List Bool) :
    ∀ c0 : Nat,
      (∀ j, j < cells.length → cells.getD j false = b.safe_get (r : Int) ((c0 + j : Nat) : Int)) →
      ((cells.zip (mapIdxFrom (fun c _ => (b.interact r c).1) c0 cells)).filter
        fun cc => cc.1 != cc.2).length
      = (mapIdxFrom (fun c _ => (b.interact r c).2) c0 cells).count true := by
  induction cells with
  | nil => intro c0 _; rfl
  | cons x xs ih =>
    intro c0 h
    have hx : x = b.safe_get (r : Int) (c0 : Int) := by
      have := h 0 (by simp)
      simpa using this
    have htail : ∀ j, j < xs.length →
        xs.getD j false = b.safe_get (r : Int) ((c0 + 1 + j : Nat) : Int) := by
      intro j hj
      have := h (j + 1) (by simpa using Nat.succ_lt_succ hj)
      have harg : c0 + (j + 1) = c0 + 1 + j := by omega
      simpa [harg] using this
    have hchg : (b.interact r c0).2 = (x != (b.interact r c0).1) := by
      rw [interact_snd, ← hx, bne_comm_bool]
    simp only [mapIdxFrom, List.zip_cons_cons, List.filter_cons, List.count_cons, hchg]
    rcases hb : (x != (b.interact r c0).1) with _ | _ <;>
      simp [ih (c0 + 1) htail]

theorem next_delta_eq_countDiff (b : Board) :
    (Board.next b).2 = countDiff b.grid (Board.next b).1.grid := by
  simp only [Board.next, countDiff]
  suffices h : ∀ (rows : List (List Bool)) (r0 : Nat),
      (∀ k, k < rows.length → rows.getD k [] = b.grid.getD (r0 + k) []) →
      ((rows.zip (mapIdxFrom (fun row cells =>
          mapIdxFrom (fun col _ => (b.interact row col).1) 0 cells) r0 rows)).map
        (fun rr => ((rr.1.zip rr.2).filter fun cc => cc.1 != cc.2).length)).sum
      = (mapIdxFrom (fun row cells =>
          (mapIdxFrom (fun col _ => (b.interact row col).2) 0 cells).count true) r0 rows).sum by
    exact (h b.grid 0 (fun k hk => by simp)).symm
  intro rows
  induction rows with
  | nil => intro r0 _; rfl
  | cons row rest ih =>
    intro r0 h
    have hrow : row = b.grid.getD r0 [] := by
      have := h 0 (by simp)
      simpa using this
    simp only [mapIdxFrom, List.zip_cons_cons, List.map_cons, List.sum_cons]
    congr 1
    · apply row_diff_eq_count b r0 row 0
      intro j hj
      rw [safe_get_natCast]
      unfold cellAt
      rw [← hrow]
      simp
    · apply ih (r0 + 1)
      intro k hk
      have := h (k + 1) (by simpa using Nat.succ_lt_succ hk)
      have harg : r0 + (k + 1) = r0 + 1 + k := by omega
      simpa [harg] using this

/-- Claim C7: one call to `Game::next` increments the generation by exactly 1
and sets the delta to exactly the number of cells whose boolean value differs
between the grid before and the grid after that call. -/
theorem c7_generation_delta :
    ∀ g : Game, (Game.next g).generation = g.generation + 1 ∧
      (Game.next g).delta = countDiff g.board.grid (Game.next g).board.grid := by
  intro g
  exact ⟨rfl, next_delta_eq_countDiff g.board⟩

/-- Claim C10: `Board::next` preserves the grid's shape — the row count and
every row's length are unchanged (out-of-range rows read as `[]` on both
sides); and `Game.next` rebuilds the game from exactly the new grid, the
incremented generation and the recomputed delta. -/
theorem c10_next_preserves_shape :
    ∀ b : Board, ((Board.next b).1.grid.length = b.grid.length ∧
      ∀ i : Nat, ((Board.next b).1.grid.getD i []).length = (b.grid.getD i []).length) ∧
    ∀ g : Game, (Game.next g).board = (g.board.next).1 ∧
      (Game.next g).generation = g.generation + 1 ∧ (Game.next g).delta = (g.board.next).2 := by
  intro b
  refine ⟨⟨by simp only [Board.next]; exact mapIdxFrom_length _ 0 b.grid, ?_⟩,
    fun g => ⟨rfl, rfl, rfl⟩⟩
  intro i
  by_cases hi : i < b.grid.length
  · simp only [Board.next]
    rw [mapIdxFrom_getD _ 0 i b.grid [] [] hi]
    exact mapIdxFrom_length _ 0 _
  · push_neg at hi
    have hlen : (Board.next b).1.grid.length = b.grid.length := by
      simp only [Board.next]
      exact mapIdxFrom_length _ 0 b.grid
    rw [List.getD_eq_default _ _ (hlen ▸ hi), List.getD_eq_default _ _ hi]

/-- Claim C3's counterexample: stepping the 3×3 vertical blinker changes
exactly 4 cells (the two tips die, the two horizontal arms are born), so the
recorded delta is 4, not 6 as the claim states. -/
theorem c3_blinker_delta_counterexample :
    (Board.next ⟨[[false, true, false], [false, true, false], [false, true, false]]⟩).2 = 4 ∧
    (4 : Nat) ≠ 6 := by
  exact ⟨rfl, by decide⟩

/-- Claim C3 amended: the 3×3 vertical blinker steps to the horizontal bar
and back, with generation 1 then 2, and the recorded delta after each of the
two calls equals 4. -/
theorem c3_blinker_amended :
    Game.next (Game.fromBoard ⟨[[false, true, false], [false, true, false], [false, true, false]]⟩) =
      ⟨⟨[[false, false, false], [true, true, true], [false, false, false]]⟩, 1, 4⟩ ∧
    Game.next ⟨⟨[[false, false, false], [true, true, true], [false, false, false]]⟩, 1, 4⟩ =
      ⟨⟨[[false, true, false], [false, true, false], [false, true, false]]⟩, 2, 4⟩ := by
  exact ⟨rfl, rfl⟩

/-- Claim C8's counterexample: on a zero-row board `Board::stringify` panics
while computing its capacity (`cols()` indexes `grid[0]`), modelled as `none`,
so it does not return the empty string; and decoding the empty seed yields a
grid with one empty row, not zero rows. -/
theorem c8_empty_counterexample :
    Board.stringifyOpt ⟨[]⟩ '#' '.' '\n' = none ∧
    (none : Option (List Char)) ≠ some [] ∧
    Board.from_seed [] '#' '.' '\n' = .ok ⟨[[]]⟩ ∧
    (⟨[[]]⟩ : Board).grid.length = 1 ∧ (1 : Nat) ≠ 0 := by
  exact ⟨rfl, by decide, rfl, rfl, by decide⟩

/-- Claim C8 amended: on a zero-row board `stringify` hits the `cols()` panic
(modelled `none`) instead of producing text, and decoding the empty seed
yields a grid with exactly one row of zero columns. -/
theorem c8_empty_amended :
    Board.stringifyOpt ⟨[]⟩ '#' '.' '\n' = none ∧
    Board.from_seed [] '#' '.' '\n' = .ok ⟨[[]]⟩ := by
  exact ⟨rfl, rfl⟩

/-- Claim C4's counterexample: with alive = dead = '#' and separator '\n' the
triple is invalid in the claim's sense, yet `from_seed` does not fail with
`InvalidSeparator` — the seed "#" decodes successfully. -/
theorem c4_alive_eq_dead_counterexample :
    Board.from_seed ['#'] '#' '#' '\n' = .ok ⟨[[true]]⟩ ∧
    ¬ Board.from_seed ['#'] '#' '#' '\n' = .error (.InvalidSeparator '\n') := by
  constructor
  · rfl
  · intro h
    rw [show Board.from_seed ['#'] '#' '#' '\n' = .ok ⟨[[true]]⟩ from rfl] at h
    exact Except.noConfusion h

/-- Claim C4 amended: `from_seed` fails with `InvalidSeparator` on every seed
exactly when the separator equals the alive or the dead symbol; the check
(performed before any parsing) does not reject `alive == dead` on its own. -/
theorem c4_invalid_separator_amended :
    ∀ alive dead sep : Char,
      (∀ seed : List Char,
        Board.from_seed seed alive dead sep = .error (.InvalidSeparator sep)) ↔
      (sep = alive ∨ sep = dead) := by
  intro alive dead sep
  constructor
  · intro h
    by_cases hcase : sep = alive ∨ sep = dead
    · exact hcase
    · exfalso
      have h0 := h []
      unfold Board.from_seed at h0
      rw [if_neg (by simpa using hcase)] at h0
      exact Except.noConfusion h0
  · intro h seed
    unfold Board.from_seed
    rw [if_pos (by rcases h with h | h <;> simp [h])]

theorem rustSplit_cons (sep c : Char) (rest : List Char) :
    rustSplit sep (c :: rest) =
      match rustSplit sep rest with
      | [] => [[]]
      | piece :: pieces =>
        if c == sep then [] :: piece :: pieces else (c :: piece) :: pieces := rfl

theorem stringifyGrid_cons_cons (alive dead sep : Char) (row r2 : List Bool)
    (rs : List (List Bool)) :
    stringifyGrid alive dead sep (row :: r2 :: rs) =
      rowChars alive dead row ++ sep :: stringifyGrid alive dead sep (r2 :: rs) := rfl

theorem rustSplit_ne_nil (sep : Char) (s : List Char) : rustSplit sep s ≠ [] := by
  cases s with
  | nil => simp [rustSplit]
  | cons c rest =>
    unfold rustSplit
    rcases h : rustSplit sep rest with _ | ⟨p, ps⟩
    · simp
    · dsimp only
      split <;> simp

theorem rustSplit_single (sep : Char) (s : List Char) (h : sep ∉ s) :
    rustSplit sep s = [s] := by
  induction s with
  | nil => rfl
  | cons c cs ih =>
    have hc : ¬(c == sep) = true := by
      simp only [beq_iff_eq]
      intro he
      exact h (by simp [he])
    have hcs : sep ∉ cs := fun hm => h (by simp [hm])
    unfold rustSplit
    rw [ih hcs]
    simp [hc]

theorem rustSplit_append (sep : Char) (row rest : List Char) (h : sep ∉ row) :
    rustSplit sep (row ++ sep :: rest) = row :: rustSplit sep rest := by
  induction row with
  | nil =>
    simp only [List.nil_append]
    rw [rustSplit_cons]
    rcases h2 : rustSplit sep rest with _ | ⟨p, ps⟩
    · exact absurd h2 (rustSplit_ne_nil sep rest)
    · simp [← h2]
  | cons c cs ih =>
    have hc : ¬(c == sep) = true := by
      simp only [beq_iff_eq]
      intro he
      exact h (by simp [he])
    have hcs : sep ∉ cs := fun hm => h (by simp [hm])
    simp only [List.cons_append]
    rw [rustSplit_cons, ih hcs]
    simp [hc]

theorem mem_rowChars {alive dead c : Char} {row : List Bool}
    (h : c ∈ rowChars alive dead row) : c = alive ∨ c = dead := by
  rcases List.mem_map.mp h with ⟨cell, _, hcell⟩
  rcases cell with _ | _
  · exact Or.inr hcell.symm
  · exact Or.inl hcell.symm

theorem sep_not_mem_rowChars {alive dead sep : Char} (ha : sep ≠ alive) (hd : sep ≠ dead)
    (row : List Bool) : sep ∉ rowChars alive dead row := by
  intro hm
  rcases mem_rowChars hm with h | h
  · exact ha h
  · exact hd h

theorem rowChars_ne_nil (alive dead : Char) {row : List Bool} (h : row ≠ []) :
    rowChars alive dead row ≠ [] := by
  unfold rowChars
  simpa using h

theorem stringifyGrid_ne_nil (alive dead sep : Char) (row : List Bool)
    (rest : List (List Bool)) (hrow : row ≠ []) :
    stringifyGrid alive dead sep (row :: rest) ≠ [] := by
  cases rest with
  | nil => exact rowChars_ne_nil alive dead hrow
  | cons r2 rs =>
    unfold stringifyGrid
    rcases hr : rowChars alive dead row with _ | ⟨x, xs⟩
    · exact absurd hr (rowChars_ne_nil alive dead hrow)
    · simp

theorem rustSplit_stringifyGrid (alive dead sep : Char) (ha : sep ≠ alive) (hd : sep ≠ dead) :
    ∀ grid : List (List Bool), grid ≠ [] →
      rustSplit sep (stringifyGrid alive dead sep grid) = grid.map (rowChars alive dead)
  | [], hne => absurd rfl hne
  | row :: rest, _ => by
    cases rest with
    | nil =>
      unfold stringifyGrid
      rw [rustSplit_single sep _ (sep_not_mem_rowChars ha hd row)]
      rfl
    | cons r2 rs =>
      show rustSplit sep (rowChars alive dead row ++ sep :: stringifyGrid alive dead sep (r2 :: rs))
          = _
      rw [rustSplit_append sep _ _ (sep_not_mem_rowChars ha hd row),
        rustSplit_stringifyGrid alive dead sep ha hd (r2 :: rs) (by simp)]
      rfl

theorem stringifyGrid_head_mem {alive dead sep : Char} {row : List Bool}
    {rest : List (List Bool)} (hrow : row ≠ []) {c : Char}
    (hc : (stringifyGrid alive dead sep (row :: rest)).head? = some c) :
    c = alive ∨ c = dead := by
  rcases row with _ | ⟨x, xs⟩
  · exact absurd rfl hrow
  · cases rest with
    | nil =>
      unfold stringifyGrid rowChars at hc
      simp only [List.map_cons, List.head?_cons, Option.some.injEq] at hc
      rcases x with _ | _
      · exact Or.inr hc.symm
      · exact Or.inl hc.symm
    | cons r2 rs =>
      unfold stringifyGrid rowChars at hc
      simp only [List.map_cons, List.cons_append, List.head?_cons, Option.some.injEq] at hc
      rcases x with _ | _
      · exact Or.inr hc.symm
      · exact Or.inl hc.symm

theorem getLast?_mem {l : List α} {a : α} (h : l.getLast? = some a) : a ∈ l := by
  rcases List.mem_getLast?_eq_getLast (l := l) (x := a) (by rw [h]; rfl) with ⟨hne, rfl⟩
  exact List.getLast_mem hne

theorem stringifyGrid_getLast_mem {alive dead sep : Char} :
    ∀ {grid : List (List Bool)}, (∀ row ∈ grid, row ≠ []) → ∀ {c : Char},
      (stringifyGrid alive dead sep grid).getLast? = some c → c = alive ∨ c = dead := by
  intro grid
  induction grid with
  | nil => intro _ c hc; simp [stringifyGrid] at hc
  | cons row rest ih =>
    intro hrows c hc
    cases rest with
    | nil =>
      exact mem_rowChars (getLast?_mem hc)
    | cons r2 rs =>
      have hr2 : r2 ≠ [] := hrows r2 (by simp)
      rcases hs : stringifyGrid alive dead sep (r2 :: rs) with _ | ⟨y, ys⟩
      · exact absurd hs (stringifyGrid_ne_nil alive dead sep r2 rs hr2)
      · rw [stringifyGrid_cons_cons, hs, List.getLast?_append_cons,
          show (sep :: y :: ys) = [sep] ++ y :: ys from rfl,
          List.getLast?_append_cons] at hc
        apply ih (fun r hr => hrows r (by simp [hr]))
        rw [hs]
        exact hc

theorem dropWhile_eq_self_of_head (p : α → Bool) (l : List α)
    (h : ∀ c, l.head? = some c → p c = false) : l.dropWhile p = l := by
  cases l with
  | nil => rfl
  | cons a t =>
    rw [List.dropWhile_cons, h a rfl]
    simp

theorem rustTrim_eq_self (s : List Char)
    (h1 : ∀ c, s.head? = some c → rustIsWhitespace c = false)
    (h2 : ∀ c, s.getLast? = some c → rustIsWhitespace c = false) :
    rustTrim s = s := by
  unfold rustTrim
  rw [dropWhile_eq_self_of_head _ s h1,
    dropWhile_eq_self_of_head _ s.reverse
      (fun c hc => h2 c (by rwa [List.head?_reverse] at hc)),
    List.reverse_reverse]

theorem set_append_cons (pre : List α) (x a : α) (l : List α) :
    (pre ++ x :: l).set pre.length a = pre ++ a :: l := by
  induction pre with
  | nil => rfl
  | cons p ps ih =>
    simp only [List.cons_append, List.length_cons, List.set_cons_succ, ih]

theorem parseRowFrom_ok (alive dead : Char) :
    ∀ (row : List Char), (∀ c ∈ row, c = alive ∨ c = dead) → (∀ c ∈ row, c.utf8Size = 1) →
      ∀ (k m : Nat) (pre : List Bool), pre.length = k → row.length ≤ m →
        parseRowFrom alive dead (charIndicesFrom k row) (pre ++ List.replicate m false) =
          .ok (pre ++ row.map (fun c => c == alive) ++ List.replicate (m - row.length) false) := by
  intro row
  induction row with
  | nil =>
    intro _ _ k m pre _ _
    simp [charIndicesFrom, parseRowFrom]
  | cons c cs ih =>
    intro hval hsz k m pre hk hm
    rcases m with _ | m'
    · simp at hm
    have hc1 : c.utf8Size = 1 := hsz c (by simp)
    have hvt : ∀ x ∈ cs, x = alive ∨ x = dead := fun x hx => hval x (by simp [hx])
    have hst : ∀ x ∈ cs, x.utf8Size = 1 := fun x hx => hsz x (by simp [hx])
    unfold charIndicesFrom parseRowFrom
    by_cases hca : c = alive
    · rw [if_pos (by simp [hca])]
      have hset : (pre ++ List.replicate (m' + 1) false).set k true
          = (pre ++ [true]) ++ List.replicate m' false := by
        rw [List.replicate_succ, ← hk, set_append_cons]
        simp
      rw [hset, hc1,
        ih hvt hst (k + 1) m' (pre ++ [true]) (by simp [hk]) (by simpa using hm)]
      simp [hca, List.append_assoc]
    · have hcd : c = dead := (hval c (by simp)).resolve_left hca
      rw [if_neg (by simp [hca]), if_neg (by simp [hcd]),
        show List.replicate (m' + 1) false = false :: List.replicate m' false from
          List.replicate_succ false m']
      have hpre : pre ++ false :: List.replicate m' false
          = (pre ++ [false]) ++ List.replicate m' false := by simp
      rw [hpre, hc1,
        ih hvt hst (k + 1) m' (pre ++ [false]) (by simp [hk]) (by simpa using hm)]
      have hcb : (c == alive) = false := by simp [hca]
      simp [hcb, List.append_assoc]

theorem rowChars_map_beq (alive dead : Char) (had : alive ≠ dead) (row : List Bool) :
    (rowChars alive dead row).map (fun c => c == alive) = row := by
  unfold rowChars
  rw [List.map_map]
  have h : ∀ cell : Bool, ((fun c => c == alive) ∘ fun cell => if cell then alive else dead) cell
      = id cell := by
    intro cell
    rcases cell with _ | _
    · simp [had.symm]
    · simp
  rw [List.map_congr_left (fun cell _ => h cell), List.map_id]

theorem foldl_max_const (xs : List Nat) (a : Nat) (h : ∀ x ∈ xs, x = a) :
    xs.foldl max a = a := by
  induction xs with
  | nil => rfl
  | cons x xs ih =>
    rw [List.foldl_cons, h x (by simp), max_self]
    exact ih (fun z hz => h z (by simp [hz]))

theorem max?_of_const {l : List Nat} {a : Nat} (hne : l ≠ []) (h : ∀ x ∈ l, x = a) :
    l.max? = some a := by
  rcases l with _ | ⟨x, xs⟩
  · exact absurd rfl hne
  · show some (xs.foldl max x) = some a
    rw [h x (by simp)]
    exact congrArg some (foldl_max_const xs a (fun z hz => h z (by simp [hz])))

theorem strByteLen_all_one : ∀ (s : List Char), (∀ c ∈ s, c.utf8Size = 1) →
    strByteLen s = s.length := by
  intro s
  induction s with
  | nil => intro _; rfl
  | cons c cs ih =>
    intro h
    unfold strByteLen at *
    simp only [List.map_cons, List.sum_cons, List.length_cons, h c (by simp),
      ih (fun z hz => h z (by simp [hz]))]
    omega

theorem parseRows_rowChars (alive dead : Char) (had : alive ≠ dead)
    (ha1 : alive.utf8Size = 1) (hd1 : dead.utf8Size = 1) (cols0 : Nat) :
    ∀ grid : List (List Bool), (∀ row ∈ grid, row.length = cols0) →
      parseRows alive dead cols0 (grid.map (rowChars alive dead)) = .ok grid := by
  intro grid
  induction grid with
  | nil => intro _; rfl
  | cons row rest ih =>
    intro hlen
    have hval : ∀ c ∈ rowChars alive dead row, c = alive ∨ c = dead :=
      fun c hc => mem_rowChars hc
    have hsz : ∀ c ∈ rowChars alive dead row, c.utf8Size = 1 := by
      intro c hc
      rcases mem_rowChars hc with h | h <;> simp [h, ha1, hd1]
    have hlen1 : (rowChars alive dead row).length = row.length := by
      simp [rowChars]
    have h0 := parseRowFrom_ok alive dead (rowChars alive dead row) hval hsz 0 cols0 []
      rfl (by rw [hlen1, hlen row (by simp)])
    rw [List.nil_append] at h0
    have h0' : parseRowFrom alive dead (charIndicesFrom 0 (rowChars alive dead row))
        (List.replicate cols0 false) = .ok row := by
      rw [h0, hlen1, hlen row (by simp), Nat.sub_self]
      simp [rowChars_map_beq alive dead had row]
    show (do
      let r ← parseRowFrom alive dead (charIndicesFrom 0 (rowChars alive dead row))
        (List.replicate cols0 false)
      let rs ← parseRows alive dead cols0 (rest.map (rowChars alive dead))
      return r :: rs) = Except.ok (row :: rest)
    rw [h0', ih (fun r hr => hlen r (by simp [hr]))]
    rfl

/-- Claim C2 amended: decode is a left inverse of encode for grids with at
least one row and at least one column, whose alive and dead symbols are
distinct single-byte non-whitespace characters and whose separator differs
from both.  (The unrestricted claim fails: zero-column grids, whitespace
symbols and multi-byte symbols are not round-tripped, and a zero-row grid's
encode panics.) -/
theorem c2_roundtrip_amended :
    ∀ (grid : List (List Bool)) (cols0 : Nat) (alive dead sep : Char),
      grid ≠ [] → 0 < cols0 → (∀ row ∈ grid, row.length = cols0) →
      alive ≠ dead → sep ≠ alive → sep ≠ dead →
      alive.utf8Size = 1 → dead.utf8Size = 1 →
      rustIsWhitespace alive = false → rustIsWhitespace dead = false →
      ∃ s : List Char, Board.stringifyOpt ⟨grid⟩ alive dead sep = some s ∧
        Board.from_seed s alive dead sep = .ok ⟨grid⟩ := by
  intro grid cols0 alive dead sep hne hpos hrows had hsa hsd ha1 hd1 hwa hwd
  refine ⟨stringifyGrid alive dead sep grid, ?_, ?_⟩
  · unfold Board.stringifyOpt Board.colsOpt
    rcases grid with _ | ⟨r, rs⟩
    · exact absurd rfl hne
    · rfl
  · have hrowsne : ∀ row ∈ grid, row ≠ [] := by
      intro row hr hnil
      have h := hrows row hr
      rw [hnil] at h
      simp at h
      omega
    have hhead : ∀ c, (stringifyGrid alive dead sep grid).head? = some c →
        rustIsWhitespace c = false := by
      intro c hc
      rcases hg : grid with _ | ⟨row, rest⟩
      · exact absurd hg hne
      · rw [hg] at hc
        rcases stringifyGrid_head_mem (hrowsne row (by rw [hg]; simp)) hc with h | h <;>
          simp [h, hwa, hwd]
    have hlast : ∀ c, (stringifyGrid alive dead sep grid).getLast? = some c →
        rustIsWhitespace c = false := by
      intro c hc
      rcases stringifyGrid_getLast_mem hrowsne hc with h | h <;> simp [h, hwa, hwd]
    have hbl : ∀ x ∈ (grid.map (rowChars alive dead)).map strByteLen, x = cols0 := by
      intro x hx
      rcases List.mem_map.mp hx with ⟨rc, hrc, rfl⟩
      rcases List.mem_map.mp hrc with ⟨row, hrow, rfl⟩
      have hsz : ∀ c ∈ rowChars alive dead row, c.utf8Size = 1 := by
        intro c hc
        rcases mem_rowChars hc with h | h <;> simp [h, ha1, hd1]
      rw [strByteLen_all_one _ hsz]
      unfold rowChars
      rw [List.length_map]
      exact hrows row hrow
    have hmapne : (grid.map (rowChars alive dead)).map strByteLen ≠ [] := by
      rcases grid with _ | ⟨r, rs⟩
      · exact absurd rfl hne
      · simp
    simp only [Board.from_seed]
    rw [if_neg (by simp [hsa, hsd]),
      rustTrim_eq_self _ hhead hlast,
      rustSplit_stringifyGrid alive dead sep hsa hsd grid hne,
      max?_of_const hmapne hbl,
      show (some cols0).getD 0 = cols0 from rfl,
      parseRows_rowChars alive dead had ha1 hd1 cols0 grid hrows]
    rfl

/-- Witness for the amended C2 at the 1×2 grid `[[true, false]]` with the
default symbols. -/
theorem c2_roundtrip_amended_witness :
    ∃ s : List Char, Board.stringifyOpt ⟨[[true, false]]⟩ '#' '.' '\n' = some s ∧
      Board.from_seed s '#' '.' '\n' = .ok ⟨[[true, false]]⟩ :=
  c2_roundtrip_amended [[true, false]] 2 '#' '.' '\n' (by decide) (by decide)
    (by decide) (by decide) (by decide) (by decide) (by decide) (by decide)
    (by decide) (by decide)

/-- Claim C2's counterexample: the rectangular 2-row, 0-column grid encodes to
the lone separator character, which trims to the empty seed and decodes to a
single empty row — not the original grid. -/
theorem c2_roundtrip_counterexample :
    Board.stringifyOpt ⟨[[], []]⟩ '#' '.' '\n' = some ['\n'] ∧
    Board.from_seed ['\n'] '#' '.' '\n' = .ok ⟨[[]]⟩ ∧
    (⟨[[]]⟩ : Board) ≠ ⟨[[], []]⟩ := by
  exact ⟨rfl, rfl, by decide⟩

theorem mem_rustTrim {s : List Char} {c : Char} (h : c ∈ rustTrim s) : c ∈ s := by
  unfold rustTrim at h
  rw [List.mem_reverse] at h
  have h2 : c ∈ (s.dropWhile rustIsWhitespace).reverse :=
    List.Sublist.mem h (List.dropWhile_sublist _)
  rw [List.mem_reverse] at h2
  exact List.Sublist.mem h2 (List.dropWhile_sublist _)

theorem mem_rustSplit_mem (sep : Char) :
    ∀ (s piece : List Char), piece ∈ rustSplit sep s → ∀ {c : Char}, c ∈ piece → c ∈ s := by
  intro s
  induction s with
  | nil =>
    intro piece hp c hc
    simp only [rustSplit, List.mem_singleton] at hp
    subst hp
    simp at hc
  | cons a t ih =>
    intro piece hp c hc
    rw [rustSplit_cons] at hp
    rcases h2 : rustSplit sep t with _ | ⟨p, ps⟩
    · exact absurd h2 (rustSplit_ne_nil sep t)
    · rw [h2] at hp
      dsimp only at hp
      by_cases ha : (a == sep) = true
      · rw [if_pos ha] at hp
        rcases List.mem_cons.mp hp with hp | hp
        · subst hp
          simp at hc
        · exact List.mem_cons_of_mem a (ih piece (h2 ▸ hp) hc)
      · rw [if_neg ha] at hp
        rcases List.mem_cons.mp hp with hp | hp
        · subst hp
          rcases List.mem_cons.mp hc with hc | hc
          · exact hc ▸ List.mem_cons_self a t
          · exact List.mem_cons_of_mem a (ih p (h2 ▸ List.mem_cons_self p ps) hc)
        · exact List.mem_cons_of_mem a
            (ih piece (h2 ▸ List.mem_cons_of_mem p hp) hc)

theorem charIndicesFrom_map_snd : ∀ (k : Nat) (s : List Char),
    (charIndicesFrom k s).map Prod.snd = s := by
  intro k s
  induction s generalizing k with
  | nil => rfl
  | cons c cs ih => simp [charIndicesFrom, ih]

theorem parseRowFrom_ok_chars (alive dead : Char) :
    ∀ (ps : List (Nat × Char)) (acc res : List Bool),
      parseRowFrom alive dead ps acc = .ok res →
      ∀ ic ∈ ps, ic.2 = alive ∨ ic.2 = dead := by
  intro ps
  induction ps with
  | nil =>
    intro _ _ _ ic hic
    simp at hic
  | cons ic rest ih =>
    rcases ic with ⟨idx, cell⟩
    intro acc res hok jc hjc
    unfold parseRowFrom at hok
    by_cases h1 : (cell == alive) = true
    · rw [if_pos h1] at hok
      rcases List.mem_cons.mp hjc with hjc | hjc
      · subst hjc
        exact Or.inl (by simpa using h1)
      · exact ih _ _ hok jc hjc
    · rw [if_neg h1] at hok
      by_cases h2 : (cell != dead) = true
      · rw [if_pos h2] at hok
        exact absurd hok (fun h => Except.noConfusion h)
      · rw [if_neg h2] at hok
        rcases List.mem_cons.mp hjc with hjc | hjc
        · subst hjc
          refine Or.inr ?_
          have := h2
          simp only [bne_iff_ne, ne_eq, Decidable.not_not] at this
          exact this
        · exact ih _ _ hok jc hjc

theorem le_foldl_max (as : List Nat) : ∀ a : Nat, a ≤ as.foldl max a ∧
    ∀ x ∈ as, x ≤ as.foldl max a := by
  induction as with
  | nil =>
    intro a
    exact ⟨le_refl a, by simp⟩
  | cons b bs ih =>
    intro a
    have h1 := ih (max a b)
    rw [List.foldl_cons]
    refine ⟨le_trans (le_max_left a b) h1.1, ?_⟩
    intro x hx
    rcases List.mem_cons.mp hx with hx | hx
    · subst hx
      exact le_trans (le_max_right a x) h1.1
    · exact h1.2 x hx

theorem le_max?_getD {l : List Nat} {x : Nat} (h : x ∈ l) : x ≤ l.max?.getD 0 := by
  rcases l with _ | ⟨a, as⟩
  · simp at h
  · show x ≤ as.foldl max a
    rcases List.mem_cons.mp h with hx | hx
    · exact hx ▸ (le_foldl_max as a).1
    · exact (le_foldl_max as a).2 x hx

theorem getD_map_beq (alive : Char) :
    ∀ (piece : List Char) (j : Nat), j < piece.length → ∀ d : Char,
      (piece.map (fun c => c == alive)).getD j false = (piece.getD j d == alive) := by
  intro piece
  induction piece with
  | nil =>
    intro j hj
    simp at hj
  | cons c cs ih =>
    intro j hj d
    cases j with
    | zero => rfl
    | succ j =>
      simp only [List.map_cons, List.getD_cons_succ]
      exact ih j (by simpa using hj) d

theorem parseRows_cons (alive dead : Char) (cols : Nat) (piece : List Char)
    (rest : List (List Char)) :
    parseRows alive dead cols (piece :: rest) = do
      let r ← parseRowFrom alive dead (charIndicesFrom 0 piece) (List.replicate cols false)
      let rs ← parseRows alive dead cols rest
      return r :: rs := rfl

theorem parseRows_ok_rows (alive dead : Char) (cols : Nat) :
    ∀ (seeds : List (List Char)) (g : List (List Bool)),
      (∀ piece ∈ seeds, ∀ c ∈ piece, c.utf8Size = 1) →
      (∀ piece ∈ seeds, piece.length ≤ cols) →
      parseRows alive dead cols seeds = .ok g →
      g.length = seeds.length ∧
      ∀ i, i < seeds.length →
        g.getD i [] = (seeds.getD i []).map (fun c => c == alive) ++
          List.replicate (cols - (seeds.getD i []).length) false := by
  intro seeds
  induction seeds with
  | nil =>
    intro g _ _ h
    have hg : g = [] := by
      have h' : (Except.ok [] : Except BoardError (List (List Bool))) = .ok g := h
      injection h' with h''
      exact h''.symm
    subst hg
    exact ⟨rfl, by intro i hi; simp at hi⟩
  | cons piece rest ih =>
    intro g hsz hle hok
    rw [parseRows_cons] at hok
    rcases hp : parseRowFrom alive dead (charIndicesFrom 0 piece)
        (List.replicate cols false) with e | r
    · rw [hp] at hok
      exact absurd hok (fun h => Except.noConfusion h)
    · rw [hp] at hok
      rcases hq : parseRows alive dead cols rest with e | rs
      · rw [hq] at hok
        exact absurd hok (fun h => Except.noConfusion h)
      · rw [hq] at hok
        have hg : g = r :: rs := by
          have h' : (Except.ok (r :: rs) : Except BoardError (List (List Bool))) = .ok g := hok
          injection h' with h''
          exact h''.symm
        subst hg
        have hvalid : ∀ c ∈ piece, c = alive ∨ c = dead := by
          intro c hc
          have hmem : (∃ ic ∈ charIndicesFrom 0 piece, ic.2 = c) := by
            have := charIndicesFrom_map_snd 0 piece
            rw [← this] at hc
            simpa using List.mem_map.mp hc
          rcases hmem with ⟨ic, hic, rfl⟩
          exact parseRowFrom_ok_chars alive dead _ _ _ hp ic hic
        have hszp : ∀ c ∈ piece, c.utf8Size = 1 := hsz piece (by simp)
        have hlep : piece.length ≤ cols := hle piece (by simp)
        have hval := parseRowFrom_ok alive dead piece hvalid hszp 0 cols [] rfl hlep
        rw [List.nil_append] at hval
        have hr : r = piece.map (fun c => c == alive) ++
            List.replicate (cols - piece.length) false :=
          Except.ok.inj (hp.symm.trans hval)
        have hrest := ih rs (fun q hq2 => hsz q (by simp [hq2]))
          (fun q hq2 => hle q (by simp [hq2])) hq
        refine ⟨by simpa using hrest.1, ?_⟩
        intro i hi
        cases i with
        | zero => simpa using hr
        | succ i =>
          simp only [List.getD_cons_succ]
          exact hrest.2 i (by simpa using hi)

theorem from_seed_ok_elim {seed : List Char} {alive dead sep : Char} {b : Board}
    (h : Board.from_seed seed alive dead sep = .ok b) :
    parseRows alive dead
      (((rustSplit sep (rustTrim seed)).map strByteLen).max?.getD 0)
      (rustSplit sep (rustTrim seed)) = .ok b.grid := by
  simp only [Board.from_seed] at h
  by_cases hc : (sep == alive || sep == dead) = true
  · rw [if_pos hc] at h
    exact absurd h (fun h => Except.noConfusion h)
  · rw [if_neg hc] at h
    rcases hp : parseRows alive dead
        (((rustSplit sep (rustTrim seed)).map strByteLen).max?.getD 0)
        (rustSplit sep (rustTrim seed)) with e | g
    · rw [hp] at h
      exact absurd h (fun h => Except.noConfusion h)
    · rw [hp] at h
      have h' : (Except.ok (⟨g⟩ : Board) : Except BoardError Board) = .ok b := h
      injection h' with h''
      rw [← h'']

theorem getD_mem_of_lt {l : List α} {i : Nat} (d : α) (h : i < l.length) :
    l.getD i d ∈ l := by
  induction l generalizing i with
  | nil => simp at h
  | cons a as ih =>
    cases i with
    | zero => exact List.mem_cons_self a as
    | succ i =>
      rw [List.getD_cons_succ]
      exact List.mem_cons_of_mem a (ih (by simpa using h))

/-- Claim C5's counterexample: with the 3-byte alive glyph '█' the seed "█"
(one character) decodes to a row of 3 columns — `s.len()` counts UTF-8 bytes
and `char_indices` yields byte offsets, so the decode is not per-character. -/
theorem c5_unicode_counterexample :
    Board.from_seed ['█'] '█' '.' '\n' = .ok ⟨[[true, false, false]]⟩ ∧
    (['█'] : List Char).length = 1 ∧
    ((⟨[[true, false, false]]⟩ : Board).grid.getD 0 []).length = 3 ∧
    (3 : Nat) ≠ 1 := by
  exact ⟨rfl, rfl, rfl, by decide⟩

/-- Claim C5 amended: `from_seed` compares symbols per character, but it
indexes columns by UTF-8 byte offsets and takes the column count to be the
maximum row-string length in bytes; when every seed character is single-byte
(one UTF-8 byte) the claim's description holds — the column count equals the
maximum row-string length in characters and the i-th character of a
row-string maps to column i of its row. -/
theorem c5_unicode_amended :
    ∀ (seed : List Char) (alive dead sep : Char) (b : Board),
      (∀ c ∈ seed, c.utf8Size = 1) →
      Board.from_seed seed alive dead sep = .ok b →
      b.grid.length = (rustSplit sep (rustTrim seed)).length ∧
      (∀ i, i < b.grid.length → (b.grid.getD i []).length =
        (((rustSplit sep (rustTrim seed)).map List.length).max?).getD 0) ∧
      (∀ i j, j < ((rustSplit sep (rustTrim seed)).getD i []).length →
        cellAt b.grid i j =
          (((rustSplit sep (rustTrim seed)).getD i []).getD j dead == alive)) := by
  intro seed alive dead sep b hsz hok
  have hmain := from_seed_ok_elim hok
  have hsub : ∀ piece ∈ rustSplit sep (rustTrim seed), ∀ c ∈ piece, c.utf8Size = 1 :=
    fun piece hp c hc => hsz c (mem_rustTrim (mem_rustSplit_mem sep _ piece hp hc))
  have hbyte : (rustSplit sep (rustTrim seed)).map strByteLen
      = (rustSplit sep (rustTrim seed)).map List.length :=
    List.map_congr_left (fun piece hp => strByteLen_all_one piece (hsub piece hp))
  rw [hbyte] at hmain
  have hle : ∀ piece ∈ rustSplit sep (rustTrim seed),
      piece.length ≤ (((rustSplit sep (rustTrim seed)).map List.length).max?).getD 0 :=
    fun piece hp => le_max?_getD (List.mem_map_of_mem List.length hp)
  have hstruct := parseRows_ok_rows alive dead _ _ b.grid hsub hle hmain
  refine ⟨hstruct.1, ?_, ?_⟩
  · intro i hi
    rw [hstruct.1] at hi
    rw [hstruct.2 i hi]
    have hmem := getD_mem_of_lt (l := rustSplit sep (rustTrim seed)) [] hi
    have := hle _ hmem
    simp only [List.length_append, List.length_map, List.length_replicate]
    omega
  · intro i j hj
    by_cases hi : i < (rustSplit sep (rustTrim seed)).length
    · unfold cellAt
      rw [hstruct.2 i hi,
        List.getD_append _ _ false j (by simpa using hj)]
      exact getD_map_beq alive _ j hj dead
    · rw [List.getD_eq_default _ _ (le_of_not_lt hi)] at hj
      simp at hj

/-- Witness for the amended C5 at the single-character seed "#". -/
theorem c5_unicode_amended_witness :
    (⟨[[true]]⟩ : Board).grid.length = (rustSplit '\n' (rustTrim ['#'])).length ∧
    (∀ i, i < (⟨[[true]]⟩ : Board).grid.length →
      ((⟨[[true]]⟩ : Board).grid.getD i []).length =
        (((rustSplit '\n' (rustTrim ['#'])).map List.length).max?).getD 0) ∧
    (∀ i j, j < ((rustSplit '\n' (rustTrim ['#'])).getD i []).length →
      cellAt (⟨[[true]]⟩ : Board).grid i j =
        (((rustSplit '\n' (rustTrim ['#'])).getD i []).getD j '.' == '#')) :=
  c5_unicode_amended ['#'] '#' '.' '\n' ⟨[[true]]⟩ (by decide) rfl

/-- `SVGOptions` from `src/render.rs`. -/
structure SVGOptions where
  cell_size : Nat
  stroke_width : Nat
  stroke_color : String
  fill_color : String
deriving DecidableEq, Repr

/-- `SVGOptions::default`: cell_size 20, stroke_width 2, white stroke,
black fill. -/
def SVGOptions.default : SVGOptions :=
  { cell_size := 20, stroke_width := 2, stroke_color := "white", fill_color := "black" }

/-- The sequence of writer events emitted by `render::svg`, with each event's
attribute values. -/
inductive SvgEvent where
  | svgStart (width height : Nat)
  | rect (x y width height : Nat) (fill stroke : String) (strokeWidth : Nat)
  | textStart (x : String) (y : Nat) (fontFamily : String) (fontSize : Nat)
      (fill dominantBaseline textAnchor : String)
  | textContent (s : String)
  | textEnd
  | svgEnd
deriving DecidableEq, Repr

def SvgEvent.isRect : SvgEvent → Bool
  | .rect .. => true
  | _ => false

def SvgEvent.isTextStart : SvgEvent → Bool
  | .textStart .. => true
  | _ => false

def SvgEvent.isTextContent : SvgEvent → Bool
  | .textContent _ => true
  | _ => false

/-- The rect-emission loops of `render::svg`: one `rect` event per alive
cell, in row-major order, at `(col * cell_size, row * cell_size)`, sized
`cell_size × cell_size`. -/
def rectEvents (grid : List (List Bool)) (opts : SVGOptions) : List SvgEvent :=
  (mapIdxFrom (fun row cells =>
    (mapIdxFrom (fun col cell =>
      if cell then
        [SvgEvent.rect (col * opts.cell_size) (row * opts.cell_size)
          opts.cell_size opts.cell_size opts.fill_color opts.stroke_color opts.stroke_width]
      else []) 0 cells).flatten) 0 grid).flatten

/-- `render::svg`.  The canvas is `cols*cell_size × rows*cell_size + 20`;
`board.cols()` panics on a zero-row grid, modelled as `none`.  The caption
text element is centered (`x="50%"`, `text-anchor="middle"`) and placed at
`y = height - 5`, with content `t = {generation}, Δ = {delta}`. -/
def svg (g : Game) (opts : SVGOptions) : Option (List SvgEvent) :=
  g.board.colsOpt.map fun cols =>
    SvgEvent.svgStart (cols * opts.cell_size) (g.board.rows * opts.cell_size + 20)
      :: rectEvents g.board.grid opts
      ++ [SvgEvent.textStart "50%" (g.board.rows * opts.cell_size + 20 - 5) "monospace" 12
            opts.fill_color "center" "middle",
          SvgEvent.textContent ("t = " ++ toString g.generation ++ ", Δ = " ++ toString g.delta),
          SvgEvent.textEnd,
          SvgEvent.svgEnd]

/-- The claim's description of the rect emission: exactly one rect per alive
cell at `(col × cell_size, row × cell_size)`, sized `cell_size × cell_size`.
Follows the claim's words. -/
def specRects (grid : List (List Bool)) (opts : SVGOptions) : List SvgEvent :=
  ((List.range grid.length).map fun row =>
    ((List.range (grid.getD row []).length).filter fun col => cellAt grid row col).map
      fun col => SvgEvent.rect (col * opts.cell_size) (row * opts.cell_size)
        opts.cell_size opts.cell_size opts.fill_color opts.stroke_color
        opts.stroke_width).flatten

theorem mapIdxFrom_flatten_eq_range (f : Nat → α → List β) (d : α) :
    ∀ (l : List α) (i : Nat),
      (mapIdxFrom f i l).flatten =
        ((List.range l.length).map fun j => f (i + j) (l.getD j d)).flatten := by
  intro l
  induction l with
  | nil => intro i; rfl
  | cons a as ih =>
    intro i
    rw [show (a :: as).length = as.length + 1 from rfl, List.range_succ_eq_map]
    simp only [List.map_cons, List.flatten_cons, List.map_map, mapIdxFrom]
    congr 1
    rw [ih (i + 1)]
    congr 1
    apply List.map_congr_left
    intro j _
    show f (i + 1 + j) (as.getD j d) = f (i + (j + 1)) ((a :: as).getD (j + 1) d)
    rw [List.getD_cons_succ]
    congr 1
    omega

theorem flatten_map_ite_eq_filter_map (p : Nat → Bool) (e : Nat → β) :
    ∀ l : List Nat,
      (l.map fun j => if p j then [e j] else []).flatten = (l.filter p).map e := by
  intro l
  induction l with
  | nil => rfl
  | cons x xs ih =>
    simp only [List.map_cons, List.flatten_cons, List.filter_cons]
    by_cases hx : p x = true
    · rw [if_pos hx, if_pos hx]
      simp [ih]
    · rw [if_neg hx, if_neg hx]
      simp [ih]

theorem rectEvents_eq_specRects (grid : List (List Bool)) (opts : SVGOptions) :
    rectEvents grid opts = specRects grid opts := by
  unfold rectEvents specRects
  rw [mapIdxFrom_flatten_eq_range _ [] grid 0]
  congr 1
  apply List.map_congr_left
  intro row _
  simp only [Nat.zero_add]
  rw [mapIdxFrom_flatten_eq_range _ false (grid.getD row []) 0]
  have h := flatten_map_ite_eq_filter_map (fun col => cellAt grid row col)
    (fun col => SvgEvent.rect (col * opts.cell_size) (row * opts.cell_size)
      opts.cell_size opts.cell_size opts.fill_color opts.stroke_color opts.stroke_width)
    (List.range (grid.getD row []).length)
  rw [← h]
  congr 1
  apply List.map_congr_left
  intro col _
  simp only [Nat.zero_add]
  rfl

theorem mem_mapIdxFrom {f : Nat → α → β} :
    ∀ {l : List α} {i : Nat} {b : β}, b ∈ mapIdxFrom f i l → ∃ k a, b = f k a := by
  intro l
  induction l with
  | nil =>
    intro i b h
    simp [mapIdxFrom] at h
  | cons x xs ih =>
    intro i b h
    rcases List.mem_cons.mp h with h | h
    · exact ⟨i, x, h⟩
    · exact ih h

theorem rectEvents_shape (grid : List (List Bool)) (opts : SVGOptions) :
    ∀ e ∈ rectEvents grid opts, ∃ x y w h f s sw, e = SvgEvent.rect x y w h f s sw := by
  intro e he
  unfold rectEvents at he
  rcases List.mem_flatten.mp he with ⟨inner, hinner, he2⟩
  rcases mem_mapIdxFrom hinner with ⟨k, cells, rfl⟩
  rcases List.mem_flatten.mp he2 with ⟨inner2, hinner2, he3⟩
  rcases mem_mapIdxFrom hinner2 with ⟨k2, cell, rfl⟩
  rcases cell with _ | _
  · simp at he3
  · simp only [if_pos] at he3
    rw [List.mem_singleton] at he3
    exact ⟨_, _, _, _, _, _, _, he3⟩

theorem rectEvents_all_isRect (grid : List (List Bool)) (opts : SVGOptions) :
    ∀ e ∈ rectEvents grid opts, e.isRect = true := by
  intro e he
  rcases rectEvents_shape grid opts e he with ⟨x, y, w, h, f, s, sw, rfl⟩
  rfl

theorem rectEvents_no_textContent (grid : List (List Bool)) (opts : SVGOptions) :
    ∀ e ∈ rectEvents grid opts, e.isTextContent = false := by
  intro e he
  rcases rectEvents_shape grid opts e he with ⟨x, y, w, h, f, s, sw, rfl⟩
  rfl

theorem rectEvents_no_textStart (grid : List (List Bool)) (opts : SVGOptions) :
    ∀ e ∈ rectEvents grid opts, e.isTextStart = false := by
  intro e he
  rcases rectEvents_shape grid opts e he with ⟨x, y, w, h, f, s, sw, rfl⟩
  rfl

/-- Claim C9's counterexample: on a zero-row board `board.cols()` panics
(modelled `none`), so `svg` emits no events at all — in particular no caption
text element — so the claim's "for every game" fails on zero-row boards. -/
theorem c9_svg_counterexample :
    svg (Game.fromBoard ⟨[]⟩) SVGOptions.default = none ∧
    (none : Option (List SvgEvent)) ≠ some [SvgEvent.textContent "t = 0, Δ = 0"] := by
  exact ⟨rfl, by decide⟩

/-- Claim C9 amended: for every game whose board has at least one row, `svg`
emits exactly one rect per alive cell at `(col × cell_size, row × cell_size)`
sized `cell_size × cell_size` (dead cells contribute nothing) and exactly one
caption text element with content `t = {generation}, Δ = {delta}` (actual Δ),
horizontally centered and placed at `y = height - 5` with
`height = rows × cell_size + 20`; on a zero-row board `svg` panics in
`cols()`.  In particular an all-dead fresh 1×1 board yields zero rects and
the caption `t = 0, Δ = 0`. -/
theorem c9_svg_amended :
    (∀ (g : Game) (opts : SVGOptions), 0 < g.board.grid.length →
      ∃ evs, svg g opts = some evs ∧
        evs.filter SvgEvent.isRect = specRects g.board.grid opts ∧
        evs.filter SvgEvent.isTextContent =
          [SvgEvent.textContent
            ("t = " ++ toString g.generation ++ ", Δ = " ++ toString g.delta)] ∧
        evs.filter SvgEvent.isTextStart =
          [SvgEvent.textStart "50%" (g.board.rows * opts.cell_size + 20 - 5) "monospace" 12
            opts.fill_color "center" "middle"]) ∧
    (svg (Game.fromBoard ⟨[[false]]⟩) SVGOptions.default).map
        (List.filter SvgEvent.isRect) = some [] ∧
    (svg (Game.fromBoard ⟨[[false]]⟩) SVGOptions.default).map
        (List.filter SvgEvent.isTextContent) =
      some [SvgEvent.textContent "t = 0, Δ = 0"] := by
  refine ⟨?_, by decide, by decide⟩
  intro g opts hpos
  have hcols : ∃ c0, g.board.colsOpt = some c0 := by
    unfold Board.colsOpt
    rcases hg : g.board.grid with _ | ⟨r, rs⟩
    · rw [hg] at hpos
      simp at hpos
    · exact ⟨r.length, rfl⟩
  rcases hcols with ⟨c0, hc0⟩
  have hsvg : svg g opts = some
      (SvgEvent.svgStart (c0 * opts.cell_size) (g.board.rows * opts.cell_size + 20)
        :: rectEvents g.board.grid opts
        ++ [SvgEvent.textStart "50%" (g.board.rows * opts.cell_size + 20 - 5) "monospace" 12
              opts.fill_color "center" "middle",
            SvgEvent.textContent
              ("t = " ++ toString g.generation ++ ", Δ = " ++ toString g.delta),
            SvgEvent.textEnd,
            SvgEvent.svgEnd]) := by
    unfold svg
    rw [hc0]
    rfl
  refine ⟨_, hsvg, ?_, ?_, ?_⟩
  · rw [List.filter_append, List.filter_cons,
      List.filter_eq_self.mpr (rectEvents_all_isRect g.board.grid opts),
      rectEvents_eq_specRects]
    simp [SvgEvent.isRect, List.filter_cons, List.filter_nil]
  · rw [List.filter_append, List.filter_cons,
      List.filter_eq_nil_iff.mpr
        (fun e he => by rw [rectEvents_no_textContent g.board.grid opts e he]; simp)]
    simp [SvgEvent.isTextContent, List.filter_cons, List.filter_nil]
  · rw [List.filter_append, List.filter_cons,
      List.filter_eq_nil_iff.mpr
        (fun e he => by rw [rectEvents_no_textStart g.board.grid opts e he]; simp)]
    simp [SvgEvent.isTextStart, List.filter_cons, List.filter_nil]

/-- Witness for the amended C9 at a fresh 1×1 all-dead board with the default
options. -/
theorem c9_svg_amended_witness :
    ∃ evs, svg (Game.fromBoard ⟨[[false]]⟩) SVGOptions.default = some evs ∧
      evs.filter SvgEvent.isRect =
        specRects (Game.fromBoard ⟨[[false]]⟩).board.grid SVGOptions.default ∧
      evs.filter SvgEvent.isTextContent =
        [SvgEvent.textContent ("t = " ++ toString (Game.fromBoard ⟨[[false]]⟩).generation
          ++ ", Δ = " ++ toString (Game.fromBoard ⟨[[false]]⟩).delta)] ∧
      evs.filter SvgEvent.isTextStart =
        [SvgEvent.textStart "50%"
          ((Game.fromBoard ⟨[[false]]⟩).board.rows * SVGOptions.default.cell_size + 20 - 5)
          "monospace" 12 SVGOptions.default.fill_color "center" "middle"] :=
  c9_svg_amended.1 (Game.fromBoard ⟨[[false]]⟩) SVGOptions.default (by decide)

end GOL
